import Mathlib

/-!
Shallow embedding of `src/archiver.py` (a capacity-bounded archive
repository).  The catalog rows, the retention engine (`cleanup`), the
facade operations (`archive`, `restore`, `listItems`, `config`) and the
size-string converter are translated directly from the source.  SQLite
tables become Lean lists, the filesystem root becomes an association
list from filename to byte size, and Python exceptions / `sys.exit`
become `Except`.
-/

namespace Archiver

/-- Status of items, mirroring the `Status` enum (stored as strings in the
`items` table). -/
inductive Status
  | Archived
  | Restored
  | Deleted
  | Corrupted
deriving DecidableEq, Repr

/-- One row of the `items` table: columns `name, version, timestamp, status,
source, archive`.  SQLite `CURRENT_TIMESTAMP` strings are modelled as `Nat`
ordered as the catalog orders the text column (`ORDER BY timestamp ASC`). -/
structure Item where
  name : String
  version : Nat
  timestamp : Nat
  status : Status
  source : String
  archive : String
deriving DecidableEq, Repr

/-- The repository root directory: an association list from filename to the
byte size `os.stat` reports for it. -/
abbrev Disk := List (String × Nat)

/-- Whole catalog-plus-filesystem state: the `items` table, the `versions`
table (one counter row per name), the `size` config value (the `config`
table always holds the key, inserted at initialization), and the files in
the repository root other than the catalog and lock files themselves being
implicit members (the sweep always retains them). -/
structure State where
  items : List Item
  versions : List (String × Nat)
  limit : Nat
  disk : Disk
deriving DecidableEq, Repr

/-- Constant `DbFile = "meta.db"` from the source. -/
def DbFile : String := "meta.db"

/-- Constant `LockFile = ".lock"` from the source. -/
def LockFile : String := ".lock"

/-- Association-list lookup, used both for `os.stat` on the root directory
and for `SELECT ... WHERE name = :name` on the `versions` table. -/
def alookup : List (String × Nat) → String → Option Nat
  | [], _ => none
  | e :: rest, f => if e.1 = f then some e.2 else alookup rest f

/-- Sum of the second components (total of byte sizes). -/
def sumSnd (l : List (String × Nat)) : Nat :=
  (l.map Prod.snd).sum

/-- The rows `SELECT archive FROM items WHERE status = 'Archived' ORDER BY
timestamp ASC` iterates over (cleanup line 152).  SQL leaves the order of
equal timestamps unspecified; the model uses a stable insertion sort. -/
def archivedRows (st : State) : List Item :=
  (List.insertionSort (fun a b : Item => a.timestamp ≤ b.timestamp) st.items).filter
    (fun it => it.status = Status.Archived)

/-- Stat every archive file (cleanup lines 158-162).  `os.stat` raises
`OSError` on a missing file, modelled as `none` for the whole pass. -/
def statAll (d : Disk) : List String → Option (List (String × Nat))
  | [] => some []
  | a :: rest =>
    match alookup d a, statAll d rest with
    | some sz, some others => some ((a, sz) :: others)
    | _, _ => none

/-- The eviction loop (cleanup lines 164-169): walk the archives oldest
first; while `totalSize > limitSize` record the current archive as evicted
and subtract its statted size.  Returns the evicted filenames in order and
the final running total. -/
def evictWalk (limit : Nat) : List (String × Nat) → Nat → List String × Nat
  | [], total => ([], total)
  | (a, sz) :: rest, total =>
    if limit < total then
      let r := evictWalk limit rest (total - sz)
      (a :: r.1, r.2)
    else
      evictWalk limit rest total

/-- The SQL `UPDATE items SET status = 'Deleted' WHERE name = :name` issued
per evicted archive (cleanup line 167).  Note the source binds the archive
FILENAME to `:name`, so this matches rows whose `name` column equals that
filename. -/
def markDeletedByName (items : List Item) (n : String) : List Item :=
  items.map (fun it => if it.name = n then { it with status := Status.Deleted } else it)

/-- The retention engine pass, `cleanup` (lines 150-174): list archived
rows by timestamp, stat each blob, evict oldest-first while over budget,
commit the status updates, and sweep every root entry that is neither the
catalog file, the lock file, nor a retained archive. -/
def cleanup (st : State) : Except String State :=
  let archives := (archivedRows st).map (fun it => it.archive)
  match statAll st.disk archives with
  | none => .error "stat failed: missing archive file"
  | some pairs =>
    let total := sumSnd pairs
    let walked := evictWalk st.limit pairs total
    let evicted := walked.1
    let items2 := evicted.foldl markDeletedByName st.items
    let retained := archives.filter (fun a => decide (a ∉ evicted))
    let keep := DbFile :: LockFile :: retained
    let disk2 := st.disk.filter (fun e => decide (e.1 ∈ keep))
    .ok { st with items := items2, disk := disk2 }

/-- The `INSERT OR IGNORE INTO versions VALUES (:name, 0)` step of
`archive` (line 181). -/
def insertOrIgnoreVersion (vs : List (String × Nat)) (name : String) : List (String × Nat) :=
  if (alookup vs name).isSome then vs else vs ++ [(name, 0)]

/-- The `UPDATE versions SET version = version + 1 WHERE name = :name`
step of `archive` (line 182). -/
def bumpVersion (vs : List (String × Nat)) (name : String) : List (String × Nat) :=
  vs.map (fun p => if p.1 = name then (p.1, p.2 + 1) else p)

/-- `nextVersion`: insert-if-absent a zero counter, increment it, read it
back (archive lines 181-184).  Returns the issued version and the updated
`versions` table. -/
def nextVersion (vs : List (String × Nat)) (name : String) : Nat × List (String × Nat) :=
  let vs2 := bumpVersion (insertOrIgnoreVersion vs name) name
  ((alookup vs2 name).getD 0, vs2)

/-- The current counter value for a name (0 when no row exists yet). -/
def counterOf (st : State) (base : String) : Nat :=
  (alookup st.versions base).getD 0

/-- One successful `archive` operation (lines 176-207) for base name
`base`: issue the next version, write the blob `"{base}-{version}.tar.gz"`
of the given size into the root, and insert the catalog row with status
`Archived` at the given timestamp.  The tar subprocess is external; this
models the success path (on failure the item insert never runs). -/
def archiveStep (st : State) (base src : String) (ts sz : Nat) : State × Nat :=
  let r := nextVersion st.versions base
  let v := r.1
  let arch := base ++ "-" ++ toString v ++ ".tar.gz"
  ({ st with
      versions := r.2,
      items := st.items ++ [⟨base, v, ts, Status.Archived, src, arch⟩],
      disk := st.disk ++ [(arch, sz)] }, v)

/-- A sequence of `n` successful archive operations on the same base name,
returning the final state and the versions issued in order. -/
def archiveSeq (st : State) (base src : String) : Nat → State × List Nat
  | 0 => (st, [])
  | n + 1 =>
    let r := archiveStep st base src 0 0
    let rest := archiveSeq r.1 base src n
    (rest.1, r.2 :: rest.2)

/-- Errors with which `restore` aborts fatally (lines 268-274); the
`notFound` message names the item and, when given, the requested version,
and `ambiguous` names the item. -/
inductive RestoreError
  | notFound (name : String) (version : Option Nat)
  | ambiguous (name : String)
deriving DecidableEq, Repr

/-- The optional `AND version = :version` clause of restore's SELECT. -/
def versionMatches (ver : Option Nat) (v : Nat) : Bool :=
  match ver with
  | none => true
  | some w => v = w

/-- The rows of `SELECT * FROM items WHERE status = 'Archived' AND name =
:name [AND version = :version]` (restore lines 263-266). -/
def archivedMatches (st : State) (name : String) (ver : Option Nat) : List Item :=
  st.items.filter (fun it =>
    it.status = Status.Archived ∧ it.name = name ∧ versionMatches ver it.version = true)

/-- The `UPDATE items SET status = :status WHERE name = :name AND version =
:version` issued at the end of restore (lines 284-286). -/
def setStatusNV (items : List Item) (name : String) (v : Nat) (s : Status) : List Item :=
  items.map (fun it =>
    if it.name = name ∧ it.version = v then { it with status := s } else it)

/-- The `restore` operation (lines 261-287).  Zero matching rows or more
than one matching row aborts fatally before any update; otherwise the tar
extraction runs (its exit status is the external parameter `extractOk`)
and the row's status becomes `Restored` on success, `Corrupted` on
failure. -/
def restoreRun (st : State) (name : String) (ver : Option Nat) (extractOk : Bool) :
    Except RestoreError State :=
  match archivedMatches st name ver with
  | [] => .error (.notFound name ver)
  | [row] =>
    let status := if extractOk then Status.Restored else Status.Corrupted
    .ok { st with items := setStatusNV st.items name row.version status }
  | _ :: _ :: _ => .error (.ambiguous name)

/-- The catalog state after a restore invocation: a fatal error exits the
process before any UPDATE, so the state is unchanged in the error cases. -/
def restoreInvocation (st : State) (name : String) (ver : Option Nat) (extractOk : Bool) :
    State :=
  match restoreRun st name ver extractOk with
  | .error _ => st
  | .ok st2 => st2

/-- Decidable equality for `Except` results, so concrete runs of the
operations can be checked by `decide`. -/
instance {α β : Type} [DecidableEq α] [DecidableEq β] : DecidableEq (Except α β) :=
  fun a b =>
    match a, b with
    | .error x, .error y =>
      if h : x = y then isTrue (by rw [h]) else isFalse (by simp [h])
    | .ok x, .ok y =>
      if h : x = y then isTrue (by rw [h]) else isFalse (by simp [h])
    | .error _, .ok _ => isFalse (by simp)
    | .ok _, .error _ => isFalse (by simp)

/-- Abstract syntax of the regular expressions handed to `list` (the
pattern is compiled with `re.compile`, line 82). -/
inductive Regex
  | fail
  | eps
  | char (c : Char)
  | anychar
  | seq (r1 r2 : Regex)
  | alt (r1 r2 : Regex)
  | star (r : Regex)
deriving DecidableEq, Repr

/-- Whether the regular expression accepts the empty string. -/
def nullable : Regex → Bool
  | .fail => false
  | .eps => true
  | .char _ => false
  | .anychar => false
  | .seq a b => nullable a && nullable b
  | .alt a b => nullable a || nullable b
  | .star _ => true

/-- Brzozowski derivative of a regular expression by one character. -/
def deriv : Regex → Char → Regex
  | .fail, _ => .fail
  | .eps, _ => .fail
  | .char c, d => if c = d then .eps else .fail
  | .anychar, _ => .eps
  | .seq a b, d =>
    if nullable a then .alt (.seq (deriv a d) b) (deriv b d) else .seq (deriv a d) b
  | .alt a b, d => .alt (deriv a d) (deriv b d)
  | .star r, d => .seq (deriv r d) (.star r)

/-- Acceptance of a whole string by a regular expression. -/
def fullMatch (r : Regex) : List Char → Bool
  | [] => nullable r
  | c :: rest => fullMatch (deriv r c) rest

/-- Python `pattern.match(s)` semantics, as used on line 296: succeeds
exactly when the pattern matches some prefix of `s`, anchored at the
start. -/
def reMatch (r : Regex) : List Char → Bool
  | [] => nullable r
  | c :: rest => nullable r || reMatch (deriv r c) rest

/-- Modelled from the spec: the search-anywhere matching (Python
`re.search` semantics) that the spec sentence "Pattern matching for `list`
is a search-anywhere regular expression against item `name`" describes;
the source itself calls `match`, so this definition exists only to compare
the two. -/
def searchAnywhereSpec (r : Regex) : List Char → Bool
  | [] => reMatch r []
  | c :: rest => reMatch r (c :: rest) || searchAnywhereSpec r rest

/-- The rows `listItems` prints (lines 289-298): all items ordered by
timestamp, filtered by `item.match(row["name"])`. -/
def listItemsPrinted (st : State) (pat : Regex) : List Item :=
  (List.insertionSort (fun a b : Item => a.timestamp ≤ b.timestamp) st.items).filter
    (fun it => reMatch pat it.name.data)

/-- Result of `convertSizeStringToInt`: a parsed size, the fatal
non-positive-size validation error (line 239), or a raised Python
exception (`IndexError` on the empty string, `ValueError` from `float`). -/
inductive ConvResult
  | ok (n : Nat)
  | fatal
  | parseError
deriving DecidableEq, Repr

/-- The `SuffixToMultiplier` table (lines 223-232): lowercase suffixes are
decimal powers, uppercase are binary powers. -/
def suffixMultiplier (c : Char) : Option Nat :=
  if c = 'k' then some 1000
  else if c = 'm' then some 1000000
  else if c = 'g' then some 1000000000
  else if c = 't' then some 1000000000000
  else if c = 'K' then some 1024
  else if c = 'M' then some 1048576
  else if c = 'G' then some 1073741824
  else if c = 'T' then some 1099511627776
  else none

/-- Accumulator loop for parsing a run of decimal digits. -/
def digitsAux : List Char → Nat → Option Nat
  | [], acc => some acc
  | c :: rest, acc =>
    if c.isDigit then digitsAux rest (acc * 10 + (c.toNat - 48)) else none

/-- Parse of the numeric part of a size string.  The source applies
Python `float`; this models it on non-empty unsigned integer literals,
where `float` (and the final `int` truncation) is exact — every value the
program's config handling is specified on. -/
def parseNatDigits (s : List Char) : Option Nat :=
  match s with
  | [] => none
  | _ => digitsAux s 0

/-- The suffix-stripping step of the converter (lines 233-236): when the
last character is a recognized suffix, its multiplier applies and the
last character is dropped, otherwise the multiplier is 1. -/
def splitSuffix (c : Char) (data : List Char) : Nat × List Char :=
  match suffixMultiplier c with
  | some m => (m, data.dropLast)
  | none => (1, data)

/-- The converter `convertSizeStringToInt` (lines 222-240): strip a
recognized one-character suffix, parse the rest as a number, multiply, and
reject non-positive results fatally. -/
def convertSizeStringToInt (s : String) : ConvResult :=
  match s.data.getLast? with
  | none => .parseError
  | some c =>
    match parseNatDigits (splitSuffix c s.data).2 with
    | none => .parseError
    | some n =>
      if (splitSuffix c s.data).1 * n = 0 then .fatal
      else .ok ((splitSuffix c s.data).1 * n)

/-- The write path of `config --size value` (lines 253-255): convert the
string and store the result as the `size` config value; a fatal conversion
aborts before the UPDATE. -/
def configSetSize (st : State) (s : String) : Except Unit State :=
  match convertSizeStringToInt s with
  | .ok n => .ok { st with limit := n }
  | _ => .error ()

/-- The read path of `config --size` (line 252 via `getConfig`): the
stored `size` value converted back with `int`. -/
def getConfigSize (st : State) : Nat :=
  st.limit

/-- Once the running total is within the limit the eviction loop changes
nothing further: the loop body only fires while `totalSize > limit`. -/
theorem evictWalk_of_le (limit : Nat) :
    ∀ (pairs : List (String × Nat)) (total : Nat), total ≤ limit →
      evictWalk limit pairs total = ([], total) := by
  intro pairs
  induction pairs with
  | nil => intro total _; rfl
  | cons e rest ih =>
    intro total h
    obtain ⟨a, sz⟩ := e
    simp only [evictWalk, if_neg (Nat.not_lt.mpr h)]
    exact ih total h

/-- Structure of the eviction walk started at the true total: the evicted
archives are a prefix of the list, the final total is the size of the
remaining suffix, and that size is within the limit. -/
theorem evictWalk_split (limit : Nat) :
    ∀ pairs : List (String × Nat),
      ∃ pre suf, pairs = pre ++ suf ∧
        (evictWalk limit pairs (sumSnd pairs)).1 = pre.map Prod.fst ∧
        (evictWalk limit pairs (sumSnd pairs)).2 = sumSnd suf ∧
        sumSnd suf ≤ limit := by
  intro pairs
  induction pairs with
  | nil =>
    exact ⟨[], [], rfl, rfl, rfl, Nat.zero_le _⟩
  | cons e rest ih =>
    obtain ⟨a, sz⟩ := e
    by_cases h : limit < sumSnd ((a, sz) :: rest)
    · have htot : sumSnd ((a, sz) :: rest) - sz = sumSnd rest := by
        simp [sumSnd]
      obtain ⟨pre, suf, hsplit, hev, htotal, hle⟩ := ih
      refine ⟨(a, sz) :: pre, suf, by rw [hsplit]; rfl, ?_, ?_, hle⟩
      · simp only [evictWalk, if_pos h, htot, hev, List.map_cons]
      · simp only [evictWalk, if_pos h, htot, htotal]
    · have hle := Nat.not_lt.mp h
      rw [evictWalk_of_le limit _ _ hle]
      exact ⟨[], (a, sz) :: rest, rfl, rfl, rfl, hle⟩

/-- Every archive the walk evicts comes from the list it walked. -/
theorem evictWalk_subset (limit : Nat) :
    ∀ (pairs : List (String × Nat)) (total : Nat) (a : String),
      a ∈ (evictWalk limit pairs total).1 → a ∈ pairs.map Prod.fst := by
  intro pairs
  induction pairs with
  | nil => intro total a h; simp [evictWalk] at h
  | cons e rest ih =>
    intro total a h
    obtain ⟨b, sz⟩ := e
    by_cases hc : limit < total
    · simp only [evictWalk, if_pos hc] at h
      rcases List.mem_cons.mp h with h2 | h2
      · simp [h2]
      · exact List.mem_cons_of_mem _ (ih _ a h2)
    · simp only [evictWalk, if_neg hc] at h
      exact List.mem_cons_of_mem _ (ih _ a h)

/-- A successful stat pass pairs every archive with its on-disk size. -/
theorem statAll_eq (d : Disk) :
    ∀ (as : List String) (pairs : List (String × Nat)), statAll d as = some pairs →
      pairs = as.map (fun a => (a, (alookup d a).getD 0)) ∧
        ∀ a ∈ as, (alookup d a).isSome = true := by
  intro as
  induction as with
  | nil =>
    intro pairs h
    simp only [statAll, Option.some.injEq] at h
    simp [← h]
  | cons a rest ih =>
    intro pairs h
    simp only [statAll] at h
    cases hl : alookup d a with
    | none => rw [hl] at h; exact absurd h (by simp)
    | some sz =>
      rw [hl] at h
      cases hr : statAll d rest with
      | none => rw [hr] at h; exact absurd h (by simp)
      | some others =>
        rw [hr] at h
        simp only [Option.some.injEq] at h
        obtain ⟨h1, h2⟩ := ih others hr
        refine ⟨?_, ?_⟩
        · rw [← h, h1]; simp [hl]
        · intro b hb
          rcases List.mem_cons.mp hb with hb2 | hb2
          · rw [hb2]; simp [hl]
          · exact h2 b hb2

/-- A missing blob for any listed archive makes the whole stat pass fail,
mirroring the uncaught `OSError` from `os.stat` on line 159. -/
theorem statAll_none (d : Disk) :
    ∀ (as : List String) (a : String), a ∈ as → alookup d a = none →
      statAll d as = none := by
  intro as
  induction as with
  | nil => intro a h; simp at h
  | cons b rest ih =>
    intro a h hnone
    rcases List.mem_cons.mp h with h2 | h2
    · rw [h2] at hnone; simp [statAll, hnone]
    · simp only [statAll]
      rw [ih a h2 hnone]
      cases alookup d b <;> rfl

/-- If every listed archive is on disk, the stat pass succeeds. -/
theorem statAll_isSome (d : Disk) :
    ∀ as : List String, (∀ a ∈ as, (alookup d a).isSome = true) →
      ∃ pairs, statAll d as = some pairs := by
  intro as
  induction as with
  | nil => intro _; exact ⟨[], rfl⟩
  | cons a rest ih =>
    intro h
    obtain ⟨sz, hsz⟩ := Option.isSome_iff_exists.mp (h a (by simp))
    obtain ⟨pairs, hp⟩ := ih (fun b hb => h b (List.mem_cons_of_mem _ hb))
    exact ⟨(a, sz) :: pairs, by simp [statAll, hsz, hp]⟩

/-- Looking up the key of the head entry returns its value. -/
theorem alookup_cons_self (e : String × Nat) (d : Disk) : alookup (e :: d) e.1 = some e.2 := by
  simp [alookup]

/-- Looking up a different key skips the head entry. -/
theorem alookup_cons_ne (e : String × Nat) (d : Disk) (a : String) (h : e.1 ≠ a) :
    alookup (e :: d) a = alookup d a := by
  simp [alookup, h]

/-- Sum of sizes is monotone under sublists. -/
theorem sumSnd_sublist_le {l1 l2 : List (String × Nat)} (h : List.Sublist l1 l2) :
    sumSnd l1 ≤ sumSnd l2 := by
  induction h with
  | slnil => exact Nat.le_refl _
  | cons a _ ih => simp only [sumSnd, List.map_cons, List.sum_cons] at *; omega
  | cons₂ a _ ih => simp only [sumSnd, List.map_cons, List.sum_cons] at *; omega

/-- Filtering a duplicate-free append by non-membership in its first part
leaves exactly the second part. -/
theorem filter_not_mem_append {as1 as2 : List String} (h : (as1 ++ as2).Nodup) :
    (as1 ++ as2).filter (fun a => decide (a ∉ as1)) = as2 := by
  rw [List.filter_append]
  have h1 : as1.filter (fun a => decide (a ∉ as1)) = [] :=
    List.filter_eq_nil_iff.mpr (fun a ha => by simp [ha])
  have h2 : as2.filter (fun a => decide (a ∉ as1)) = as2 :=
    List.filter_eq_self.mpr (fun a ha => by
      simp only [decide_eq_true_eq]
      exact fun hmem => (List.disjoint_of_nodup_append h) hmem ha)
  rw [h1, h2, List.nil_append]

/-- Entries of the root directory whose filename lies in a duplicate-free
name list are, up to permutation, exactly those names paired with their
looked-up sizes. -/
theorem filter_mem_perm (f : String → Nat) :
    ∀ (d : Disk) (S : List String), (d.map Prod.fst).Nodup → S.Nodup →
      (∀ a ∈ S, alookup d a = some (f a)) →
      List.Perm (d.filter (fun e => decide (e.1 ∈ S))) (S.map (fun a => (a, f a))) := by
  intro d
  induction d with
  | nil =>
    intro S _ _ hlook
    have hS : S = [] := List.eq_nil_iff_forall_not_mem.mpr (fun a ha => by
      have := hlook a ha; simp [alookup] at this)
    subst hS; simp
  | cons e d2 ih =>
    intro S hd hS hlook
    have hd' : e.1 ∉ d2.map Prod.fst ∧ (d2.map Prod.fst).Nodup := by
      rw [List.map_cons] at hd; exact List.nodup_cons.mp hd
    have hkey : e.1 ∉ d2.map Prod.fst := hd'.1
    have hd2 : (d2.map Prod.fst).Nodup := hd'.2
    by_cases he : e.1 ∈ S
    · have hf : f e.1 = e.2 := by
        have hl := hlook e.1 he
        rw [alookup_cons_self] at hl
        exact (Option.some.injEq _ _ ▸ hl).symm
      have filter_eq : (e :: d2).filter (fun x => decide (x.1 ∈ S)) =
          e :: d2.filter (fun x => decide (x.1 ∈ S)) := by
        simp [List.filter_cons, he]
      have congr2 : d2.filter (fun x => decide (x.1 ∈ S)) =
          d2.filter (fun x => decide (x.1 ∈ S.erase e.1)) := by
        apply List.filter_congr
        intro x hx
        have hxkey : x.1 ≠ e.1 := fun hh => hkey (hh ▸ List.mem_map_of_mem Prod.fst hx)
        simp only [decide_eq_decide]
        exact (List.mem_erase_of_ne hxkey).symm
      have hIH := ih (S.erase e.1) hd2 (hS.erase e.1) (fun a ha => by
        have haS : a ∈ S := List.mem_of_mem_erase ha
        have hane : a ≠ e.1 := ((List.Nodup.mem_erase_iff hS).mp ha).1
        have hl := hlook a haS
        rwa [alookup_cons_ne e d2 a (Ne.symm hane)] at hl)
      have hperm1 : List.Perm S (e.1 :: S.erase e.1) := List.perm_cons_erase he
      have hpermMap : List.Perm (S.map (fun a => (a, f a)))
          ((e.1, f e.1) :: (S.erase e.1).map (fun a => (a, f a))) := by
        simpa using hperm1.map (fun a => (a, f a))
      have heq : (e.1, f e.1) = e := by rw [hf]
      rw [filter_eq, congr2]
      exact List.Perm.trans (List.Perm.cons e hIH) (by rw [heq] at hpermMap; exact hpermMap.symm)
    · have filter_eq : (e :: d2).filter (fun x => decide (x.1 ∈ S)) =
          d2.filter (fun x => decide (x.1 ∈ S)) := by
        simp [List.filter_cons, he]
      rw [filter_eq]
      exact ih S hd2 hS (fun a ha => by
        have hane : e.1 ≠ a := fun hh => he (hh ▸ ha)
        have hl := hlook a ha
        rwa [alookup_cons_ne e d2 a hane] at hl)

/-- Looking up a filename excluded by the sweep filter yields nothing. -/
theorem alookup_filter_not_mem (keep : List String) (f : String) (h : f ∉ keep) :
    ∀ d : Disk, alookup (d.filter (fun e => decide (e.1 ∈ keep))) f = none := by
  intro d
  induction d with
  | nil => rfl
  | cons e d2 ih =>
    by_cases hk : e.1 ∈ keep
    · have : (e :: d2).filter (fun x => decide (x.1 ∈ keep)) =
          e :: d2.filter (fun x => decide (x.1 ∈ keep)) := by
        simp [List.filter_cons, hk]
      rw [this]
      have hne : e.1 ≠ f := fun hh => h (hh ▸ hk)
      rw [alookup_cons_ne _ _ _ hne]
      exact ih
    · have : (e :: d2).filter (fun x => decide (x.1 ∈ keep)) =
          d2.filter (fun x => decide (x.1 ∈ keep)) := by
        simp [List.filter_cons, hk]
      rw [this]
      exact ih

/-- Every archive filename the retention engine walks belongs to an item
of the catalog with status `Archived`. -/
theorem archives_owner (st : State) :
    ∀ a ∈ (archivedRows st).map (fun it => it.archive),
      ∃ it ∈ st.items, it.status = Status.Archived ∧ it.archive = a := by
  intro a ha
  obtain ⟨it, hit, hae⟩ := List.mem_map.mp ha
  have h2 := List.mem_filter.mp hit
  have h3 : it ∈ st.items :=
    ((List.perm_insertionSort (fun a b : Item => a.timestamp ≤ b.timestamp) st.items).mem_iff).mp
      h2.1
  exact ⟨it, h3, by simpa using h2.2, hae⟩

/-- Conversely, every `Archived` item of the catalog appears among the
walked rows. -/
theorem mem_archivedRows (st : State) (it : Item) (hmem : it ∈ st.items)
    (hst : it.status = Status.Archived) : it ∈ archivedRows st := by
  refine List.mem_filter.mpr ⟨?_, by simpa using hst⟩
  exact ((List.perm_insertionSort (fun a b : Item => a.timestamp ≤ b.timestamp) st.items).mem_iff).mpr
    hmem

/-- If no two catalog items share an archive filename, the walked archive
list is duplicate-free. -/
theorem archives_nodup (st : State) (h : (st.items.map (fun it => it.archive)).Nodup) :
    ((archivedRows st).map (fun it => it.archive)).Nodup := by
  have hperm : List.Perm
      ((List.insertionSort (fun a b : Item => a.timestamp ≤ b.timestamp) st.items).map
        (fun it => it.archive))
      (st.items.map (fun it => it.archive)) :=
    (List.perm_insertionSort (fun a b : Item => a.timestamp ≤ b.timestamp) st.items).map _
  have hsortNodup := hperm.symm.nodup h
  exact List.Nodup.sublist
    (List.Sublist.map (fun it => it.archive)
      (List.filter_sublist (List.insertionSort (fun a b : Item => a.timestamp ≤ b.timestamp)
        st.items)))
    hsortNodup

/-- The eviction status update is a no-op when no catalog item's `name`
column equals the bound filename (the source binds the archive filename to
`:name`). -/
theorem markDeletedByName_of_not_mem {items : List Item} {n : String}
    (h : ∀ it ∈ items, it.name ≠ n) : markDeletedByName items n = items := by
  unfold markDeletedByName
  rw [List.map_congr_left (fun it hit => by rw [if_neg]; simp [h it hit])]
  exact List.map_id items

/-- Folding the eviction update over a list of filenames that no item is
named after leaves the catalog unchanged. -/
theorem foldl_markDeleted_id :
    ∀ (evicted : List String) (items : List Item),
      (∀ a ∈ evicted, ∀ it ∈ items, it.name ≠ a) →
      evicted.foldl markDeletedByName items = items := by
  intro evicted
  induction evicted with
  | nil => intro items _; rfl
  | cons a rest ih =>
    intro items h
    have h1 : markDeletedByName items a = items :=
      markDeletedByName_of_not_mem (fun it hit => h a (by simp) it hit)
    simp only [List.foldl_cons, h1]
    exact ih items (fun b hb it hit => h b (List.mem_cons_of_mem _ hb) it hit)

/-- Destructured form of a successful retention pass: the stat results,
the catalog updates, and the swept directory. -/
theorem cleanup_ok_elim (st st' : State) (h : cleanup st = .ok st') :
    ∃ pairs, statAll st.disk ((archivedRows st).map (fun it => it.archive)) = some pairs ∧
      st'.items =
        ((evictWalk st.limit pairs (sumSnd pairs)).1).foldl markDeletedByName st.items ∧
      st'.versions = st.versions ∧
      st'.limit = st.limit ∧
      st'.disk = st.disk.filter (fun e => decide (e.1 ∈ DbFile :: LockFile ::
        ((archivedRows st).map (fun it => it.archive)).filter
          (fun a => decide (a ∉ (evictWalk st.limit pairs (sumSnd pairs)).1)))) := by
  simp only [cleanup] at h
  cases hsa : statAll st.disk ((archivedRows st).map (fun it => it.archive)) with
  | none => rw [hsa] at h; exact absurd h (by simp)
  | some pairs =>
    rw [hsa] at h
    simp only [Except.ok.injEq] at h
    exact ⟨pairs, rfl, by rw [← h], by rw [← h], by rw [← h], by rw [← h]⟩

/-- Permutation-invariance of the size sum. -/
theorem sumSnd_perm {l1 l2 : List (String × Nat)} (h : List.Perm l1 l2) :
    sumSnd l1 = sumSnd l2 :=
  (h.map Prod.snd).sum_eq

/-- C2, amended.  After any successful retention pass on a well-formed
state (no two root entries share a filename, no two catalog rows share an
archive filename), the total size of the files left in the repository
root other than the catalog file and the lock file is at most the
configured limit.  There is no exception for a limit smaller than every
item: in that case the walk evicts every blob, the newest included, and
the remaining total is zero. -/
theorem cleanup_disk_within_budget (st st' : State)
    (hdisk : (st.disk.map Prod.fst).Nodup)
    (harch : (st.items.map (fun it => it.archive)).Nodup)
    (h : cleanup st = .ok st') :
    sumSnd (st'.disk.filter (fun e => decide (e.1 ≠ DbFile ∧ e.1 ≠ LockFile))) ≤ st.limit := by
  obtain ⟨pairs, hsa, _, _, _, hdisk2⟩ := cleanup_ok_elim st st' h
  obtain ⟨hpairs, hsome⟩ := statAll_eq st.disk _ pairs hsa
  obtain ⟨pre, suf, hsplit, hev, htot, hle⟩ := evictWalk_split st.limit pairs
  have hmap : pre ++ suf =
      ((archivedRows st).map (fun it => it.archive)).map
        (fun a => (a, (alookup st.disk a).getD 0)) := by
    rw [← hpairs, hsplit]
  obtain ⟨as1, as2, hasplit, has1, has2⟩ := List.append_eq_map_iff.mp hmap
  have hanodup : ((archivedRows st).map (fun it => it.archive)).Nodup := archives_nodup st harch
  have hevicted : (evictWalk st.limit pairs (sumSnd pairs)).1 = as1 := by
    rw [hev, ← has1, List.map_map]
    exact List.map_id as1
  have hretained : ((archivedRows st).map (fun it => it.archive)).filter
      (fun a => decide (a ∉ (evictWalk st.limit pairs (sumSnd pairs)).1)) = as2 := by
    rw [hevicted, hasplit]
    exact filter_not_mem_append (hasplit ▸ hanodup)
  rw [hdisk2, hretained, List.filter_filter]
  have hsub : List.Sublist
      (st.disk.filter (fun e =>
        decide (e.1 ≠ DbFile ∧ e.1 ≠ LockFile) && decide (e.1 ∈ DbFile :: LockFile :: as2)))
      (st.disk.filter (fun e => decide (e.1 ∈ as2))) := by
    apply List.monotone_filter_right
    intro e he
    simp only [Bool.and_eq_true, decide_eq_true_eq] at he
    obtain ⟨⟨hdb, hlk⟩, hmem⟩ := he
    rcases List.mem_cons.mp hmem with h1 | h1
    · exact absurd h1 hdb
    rcases List.mem_cons.mp h1 with h2 | h2
    · exact absurd h2 hlk
    · simp [h2]
  refine le_trans (sumSnd_sublist_le hsub) ?_
  have has2nodup : as2.Nodup := List.Nodup.of_append_right (hasplit ▸ hanodup)
  have hlook2 : ∀ a ∈ as2, alookup st.disk a = some ((alookup st.disk a).getD 0) := by
    intro a ha
    have hmemarch : a ∈ (archivedRows st).map (fun it => it.archive) := by
      rw [hasplit]; exact List.mem_append_right as1 ha
    obtain ⟨v, hv⟩ := Option.isSome_iff_exists.mp (hsome a hmemarch)
    rw [hv]; rfl
  have hperm := filter_mem_perm (fun a => (alookup st.disk a).getD 0) st.disk as2 hdisk
    has2nodup hlook2
  rw [sumSnd_perm hperm, has2]
  exact hle

/-- C9, amended.  Provided no catalog item's `name` equals any item's
`archive` filename (so the mis-keyed eviction UPDATE of line 167 matches
nothing), every filesystem entry left under the repository root after a
successful pass is the catalog file, the lock sentinel file, or the
archive filename of a catalog item whose status is not `Deleted`. -/
theorem cleanup_root_entries_owned (st st' : State)
    (hnc : ∀ it ∈ st.items, ∀ it2 ∈ st.items, it.name ≠ it2.archive)
    (h : cleanup st = .ok st') :
    ∀ e ∈ st'.disk, e.1 = DbFile ∨ e.1 = LockFile ∨
      ∃ it ∈ st'.items, it.archive = e.1 ∧ it.status ≠ Status.Deleted := by
  obtain ⟨pairs, hsa, hitems, _, _, hdisk2⟩ := cleanup_ok_elim st st' h
  have hitems_eq : st'.items = st.items := by
    rw [hitems]
    apply foldl_markDeleted_id
    intro a ha it hit
    have hmem : a ∈ pairs.map Prod.fst := evictWalk_subset st.limit pairs _ a ha
    obtain ⟨hpairs, _⟩ := statAll_eq st.disk _ pairs hsa
    have hfst : pairs.map Prod.fst = (archivedRows st).map (fun it => it.archive) := by
      rw [hpairs, List.map_map]
      exact List.map_id _
    rw [hfst] at hmem
    obtain ⟨own, hown, _, harcheq⟩ := archives_owner st a hmem
    exact harcheq ▸ hnc it hit own hown
  intro e he
  rw [hdisk2] at he
  have hkeep := (List.mem_filter.mp he).2
  simp only [decide_eq_true_eq] at hkeep
  rcases List.mem_cons.mp hkeep with h1 | h1
  · exact Or.inl h1
  rcases List.mem_cons.mp h1 with h2 | h2
  · exact Or.inr (Or.inl h2)
  · have hmemarch := List.mem_of_mem_filter h2
    obtain ⟨it, hit, hstatus, harcheq⟩ := archives_owner st e.1 hmemarch
    exact Or.inr (Or.inr ⟨it, hitems_eq ▸ hit, harcheq, by rw [hstatus]; simp⟩)

/-- C3, amended.  The sweep keeps only retained `Archived` blobs: the blob
of any catalog item whose status is not `Archived` (`Restored`,
`Corrupted` or `Deleted`) is removed from the repository root by the
reconciliation of a successful pass. -/
theorem cleanup_removes_nonarchived_blob (st st' : State) (it : Item)
    (harch : (st.items.map (fun it => it.archive)).Nodup)
    (hit : it ∈ st.items) (hst : it.status ≠ Status.Archived)
    (hdb : it.archive ≠ DbFile) (hlk : it.archive ≠ LockFile)
    (h : cleanup st = .ok st') :
    alookup st'.disk it.archive = none := by
  obtain ⟨pairs, hsa, _, _, _, hdisk2⟩ := cleanup_ok_elim st st' h
  rw [hdisk2]
  refine alookup_filter_not_mem _ it.archive ?_ st.disk
  intro hmem
  rcases List.mem_cons.mp hmem with h1 | h1
  · exact hdb h1
  rcases List.mem_cons.mp h1 with h2 | h2
  · exact hlk h2
  · have hmemarch := List.mem_of_mem_filter h2
    obtain ⟨own, hown, hownst, harcheq⟩ := archives_owner st it.archive hmemarch
    have howneq : own = it := List.inj_on_of_nodup_map harch hown hit harcheq
    exact hst (howneq ▸ hownst)

/-- C4, amended.  An `Archived` catalog item whose blob file is missing
from the repository root makes the stat step raise, and the retention
pass aborts with an error; the missing blob is not treated as
zero-size. -/
theorem cleanup_missing_blob_aborts (st : State) (it : Item)
    (hit : it ∈ st.items) (hst : it.status = Status.Archived)
    (hmiss : alookup st.disk it.archive = none) :
    cleanup st = .error "stat failed: missing archive file" := by
  have hrow : it ∈ archivedRows st := mem_archivedRows st it hit hst
  have hmem : it.archive ∈ (archivedRows st).map (fun x => x.archive) :=
    List.mem_map_of_mem _ hrow
  have hnone := statAll_none st.disk _ it.archive hmem hmiss
  simp [cleanup, hnone]

/-- C5.  Restore selects only rows with status `Archived` matching the
given name (and version when supplied).  Zero matches is the fatal
not-found error carrying the item name and the requested version; more
than one match is the fatal ambiguous-name error; an item whose status is
`Restored`, `Deleted` or `Corrupted` is therefore rejected as not found;
and in every fatal case the invocation leaves the catalog unchanged. -/
theorem restore_requires_unique_archived (st : State) (name : String) (ver : Option Nat)
    (extractOk : Bool) :
    (archivedMatches st name ver = [] →
      restoreRun st name ver extractOk = .error (.notFound name ver) ∧
      restoreInvocation st name ver extractOk = st) ∧
    (2 ≤ (archivedMatches st name ver).length →
      restoreRun st name ver extractOk = .error (.ambiguous name) ∧
      restoreInvocation st name ver extractOk = st) ∧
    ((∀ it ∈ st.items, it.name = name → it.status ≠ Status.Archived) →
      restoreRun st name ver extractOk = .error (.notFound name ver) ∧
      restoreInvocation st name ver extractOk = st) := by
  have hambig : 2 ≤ (archivedMatches st name ver).length →
      restoreRun st name ver extractOk = .error (.ambiguous name) ∧
      restoreInvocation st name ver extractOk = st := by
    intro h
    cases hm : archivedMatches st name ver with
    | nil => rw [hm] at h; simp at h
    | cons r rest =>
      cases rest with
      | nil => rw [hm] at h; simp at h
      | cons r2 rest2 =>
        exact ⟨by simp [restoreRun, hm], by simp [restoreInvocation, restoreRun, hm]⟩
  have hempty : archivedMatches st name ver = [] →
      restoreRun st name ver extractOk = .error (.notFound name ver) ∧
      restoreInvocation st name ver extractOk = st := by
    intro h
    exact ⟨by simp [restoreRun, h], by simp [restoreInvocation, restoreRun, h]⟩
  refine ⟨hempty, hambig, ?_⟩
  intro h
  apply hempty
  apply List.filter_eq_nil_iff.mpr
  intro it hit
  simp only [decide_eq_true_eq]
  rintro ⟨hstat, hname, -⟩
  exact h it hit hname hstat

/-- Looking up a name after appending entries falls through to the
appended part when the front part does not hold the name. -/
theorem alookup_append_none (f : String) :
    ∀ l1 l2 : List (String × Nat), alookup l1 f = none →
      alookup (l1 ++ l2) f = alookup l2 f := by
  intro l1
  induction l1 with
  | nil => intro l2 _; rfl
  | cons e l1' ih =>
    intro l2 h
    by_cases he : e.1 = f
    · rw [← he] at h
      rw [alookup_cons_self] at h
      exact absurd h (by simp)
    · rw [List.cons_append, alookup_cons_ne _ _ _ he]
      rw [alookup_cons_ne _ _ _ he] at h
      exact ih l2 h

/-- Bumping a name's counter rows adds one to the value the lookup sees. -/
theorem alookup_bump (name : String) :
    ∀ vs : List (String × Nat),
      alookup (bumpVersion vs name) name = (alookup vs name).map (fun v => v + 1) := by
  intro vs
  induction vs with
  | nil => rfl
  | cons p vs' ih =>
    by_cases hp : p.1 = name
    · subst hp
      simp [bumpVersion, alookup]
    · simp only [bumpVersion, List.map_cons, if_neg hp]
      rw [alookup_cons_ne _ _ _ hp, alookup_cons_ne _ _ _ hp]
      exact ih

/-- After the insert-if-absent step the counter row for the name exists
and holds the prior value (zero when the row was absent). -/
theorem alookup_insertOrIgnore (vs : List (String × Nat)) (name : String) :
    alookup (insertOrIgnoreVersion vs name) name = some ((alookup vs name).getD 0) := by
  unfold insertOrIgnoreVersion
  cases hv : alookup vs name with
  | some v => simp [hv]
  | none =>
    simp only [hv, Option.isSome_none, Bool.false_eq_true, if_false, Option.getD_none]
    rw [alookup_append_none name vs _ hv]
    exact alookup_cons_self (name, 0) []

/-- The issued version is always the prior counter value plus one. -/
theorem nextVersion_issued (vs : List (String × Nat)) (name : String) :
    (nextVersion vs name).1 = (alookup vs name).getD 0 + 1 := by
  show (alookup (bumpVersion (insertOrIgnoreVersion vs name) name) name).getD 0 =
    (alookup vs name).getD 0 + 1
  rw [alookup_bump, alookup_insertOrIgnore]
  rfl

/-- After issuing, the stored counter equals the issued version. -/
theorem nextVersion_counter (vs : List (String × Nat)) (name : String) :
    alookup (nextVersion vs name).2 name = some ((alookup vs name).getD 0 + 1) := by
  show alookup (bumpVersion (insertOrIgnoreVersion vs name) name) name =
    some ((alookup vs name).getD 0 + 1)
  rw [alookup_bump, alookup_insertOrIgnore]
  rfl

/-- One archive operation issues exactly the incremented counter. -/
theorem archiveStep_version (st : State) (base src : String) (ts sz : Nat) :
    (archiveStep st base src ts sz).2 = counterOf st base + 1 :=
  nextVersion_issued st.versions base

/-- One archive operation advances the stored counter by one. -/
theorem archiveStep_counter (st : State) (base src : String) (ts sz : Nat) :
    counterOf (archiveStep st base src ts sz).1 base = counterOf st base + 1 := by
  show (alookup (nextVersion st.versions base).2 base).getD 0 = counterOf st base + 1
  rw [nextVersion_counter]
  rfl

/-- The catalog rows after one archive operation: the old rows plus one
new `Archived` row carrying the issued version and the blob filename. -/
theorem archiveStep_items (st : State) (base src : String) (ts sz : Nat) :
    (archiveStep st base src ts sz).1.items = st.items ++
      [⟨base, counterOf st base + 1, ts, Status.Archived, src,
        base ++ "-" ++ toString (counterOf st base + 1) ++ ".tar.gz"⟩] := by
  show st.items ++ [⟨base, (nextVersion st.versions base).1, ts, Status.Archived, src,
    base ++ "-" ++ toString (nextVersion st.versions base).1 ++ ".tar.gz"⟩] = _
  rw [nextVersion_issued]
  rfl

/-- Invariant maintained by the versioning service: every catalog version
issued for a name is at most that name's counter. -/
def versInv (st : State) (base : String) : Prop :=
  ∀ it ∈ st.items, it.name = base → it.version ≤ counterOf st base

/-- No two catalog items of a given name share a version. -/
def versionsDistinct (st : State) (base : String) : Prop :=
  ((st.items.filter (fun it => it.name = base)).map (fun it => it.version)).Nodup

instance (st : State) (base : String) : Decidable (versInv st base) := by
  unfold versInv
  infer_instance

instance (st : State) (base : String) : Decidable (versionsDistinct st base) := by
  unfold versionsDistinct
  infer_instance

/-- One archive operation preserves the counter invariant and keeps the
per-name versions pairwise distinct: the new row's version exceeds the
old counter, which dominates every existing version of that name. -/
theorem archiveStep_distinct (st : State) (base src : String) (ts sz : Nat)
    (hinv : versInv st base) (hdist : versionsDistinct st base) :
    versInv (archiveStep st base src ts sz).1 base ∧
      versionsDistinct (archiveStep st base src ts sz).1 base := by
  have hc := archiveStep_counter st base src ts sz
  have hi := archiveStep_items st base src ts sz
  constructor
  · intro it hit hname
    rw [hi] at hit
    rcases List.mem_append.mp hit with hold | hnew
    · rw [hc]
      exact Nat.le_succ_of_le (hinv it hold hname)
    · rw [List.mem_singleton.mp hnew, hc]
  · unfold versionsDistinct
    rw [hi, List.filter_append, List.map_append]
    have hnewkeep : List.filter (fun it => decide (it.name = base))
        [(⟨base, counterOf st base + 1, ts, Status.Archived, src,
          base ++ "-" ++ toString (counterOf st base + 1) ++ ".tar.gz"⟩ : Item)] =
        [⟨base, counterOf st base + 1, ts, Status.Archived, src,
          base ++ "-" ++ toString (counterOf st base + 1) ++ ".tar.gz"⟩] := by
      simp
    rw [hnewkeep]
    rw [List.nodup_append]
    refine ⟨hdist, List.nodup_singleton _, ?_⟩
    intro v hv
    obtain ⟨it, hitmem, hver⟩ := List.mem_map.mp hv
    have hfil := List.mem_filter.mp hitmem
    have hle : it.version ≤ counterOf st base :=
      hinv it hfil.1 (by simpa using hfil.2)
    simp only [List.map_cons, List.map_nil, List.mem_singleton]
    intro hcontr
    rw [hver] at hle
    rw [hcontr] at hle
    omega

/-- The versions a run of archive operations issues form the arithmetic
progression starting just above the initial counter. -/
theorem archiveSeq_versions (base src : String) :
    ∀ (n : Nat) (st : State),
      (archiveSeq st base src n).2 =
        (List.range n).map (fun i => counterOf st base + (i + 1)) := by
  intro n
  induction n with
  | zero => intro st; rfl
  | succ n ih =>
    intro st
    simp only [archiveSeq]
    rw [ih (archiveStep st base src 0 0).1, archiveStep_version,
      archiveStep_counter, List.range_succ_eq_map]
    simp only [List.map_cons, List.map_map]
    congr 1
    apply List.map_congr_left
    intro i _
    simp only [Function.comp_apply, Nat.succ_eq_add_one]
    omega

/-- A run of archive operations preserves the counter invariant and the
pairwise distinctness of that name's versions. -/
theorem archiveSeq_distinct (base src : String) :
    ∀ (n : Nat) (st : State), versInv st base → versionsDistinct st base →
      versInv (archiveSeq st base src n).1 base ∧
        versionsDistinct (archiveSeq st base src n).1 base := by
  intro n
  induction n with
  | zero => intro st hinv hdist; exact ⟨hinv, hdist⟩
  | succ n ih =>
    intro st hinv hdist
    obtain ⟨hinv2, hdist2⟩ := archiveStep_distinct st base src 0 0 hinv hdist
    exact ih (archiveStep st base src 0 0).1 hinv2 hdist2

/-- A restore invocation never touches the `versions` table (its UPDATE
statements touch only `items`). -/
theorem restoreInvocation_versions (t : State) (nm : String) (vr : Option Nat) (ok : Bool) :
    (restoreInvocation t nm vr ok).versions = t.versions := by
  unfold restoreInvocation restoreRun
  cases archivedMatches t nm vr with
  | nil => rfl
  | cons r rest =>
    cases rest with
    | nil => rfl
    | cons r2 rest2 => rfl

/-- C6.  A run of archive operations on one base name issues the versions
counter+1, counter+2, ... — strictly increasing by exactly one with no
gaps and no reuse; under the counter invariant the per-name catalog
versions stay pairwise distinct; and neither the retention engine nor a
restore invocation ever modifies the `versions` table, so deleting items
cannot cause a version to be reissued. -/
theorem archive_versions_consecutive (st : State) (base src : String) (n : Nat) :
    ((archiveSeq st base src n).2 =
      (List.range n).map (fun i => counterOf st base + (i + 1))) ∧
    (versInv st base → versionsDistinct st base →
      versionsDistinct (archiveSeq st base src n).1 base) ∧
    (∀ t t' : State, cleanup t = Except.ok t' → t'.versions = t.versions) ∧
    (∀ (t : State) (nm : String) (vr : Option Nat) (ok : Bool),
      (restoreInvocation t nm vr ok).versions = t.versions) := by
  refine ⟨archiveSeq_versions base src n st, ?_, ?_, restoreInvocation_versions⟩
  · intro h1 h2
    exact (archiveSeq_distinct base src n st h1 h2).2
  · intro t t' h
    obtain ⟨pairs, _, _, hv, _, _⟩ := cleanup_ok_elim t t' h
    exact hv

/-- Concatenating the pieces of the blob filename for version one. -/
theorem archive_name_one (base : String) :
    base ++ "-" ++ toString (1 : Nat) ++ ".tar.gz" = base ++ "-1.tar.gz" := by
  rw [String.append_assoc, String.append_assoc]
  rfl

/-- Every archive operation issues a version of at least one: the counter
row is created at zero and incremented before being read. -/
theorem issued_version_pos (t : State) (b s : String) (ts2 sz2 : Nat) :
    1 ≤ (archiveStep t b s ts2 sz2).2 := by
  rw [archiveStep_version]
  omega

/-- C10.  The first archive of a never-before-archived base name issues
version 1 (the counter row is created at 0, incremented, then read), the
inserted row's blob filename is `{name}-1.tar.gz`, and no archive
operation ever issues version 0. -/
theorem first_archive_version_one (st : State) (base src : String) (ts sz : Nat)
    (h : alookup st.versions base = none) :
    (archiveStep st base src ts sz).2 = 1 ∧
    (archiveStep st base src ts sz).1.items =
      st.items ++ [⟨base, 1, ts, Status.Archived, src, base ++ "-1.tar.gz"⟩] ∧
    (∀ (t : State) (b s : String) (ts2 sz2 : Nat), 1 ≤ (archiveStep t b s ts2 sz2).2) := by
  have hc : counterOf st base = 0 := by
    unfold counterOf
    rw [h]
    rfl
  refine ⟨?_, ?_, issued_version_pos⟩
  · rw [archiveStep_version, hc]
  · rw [archiveStep_items, hc, archive_name_one]

/-- Characterization of the anchored matcher: `reMatch` succeeds exactly
when the pattern fully matches some prefix of the string. -/
theorem reMatch_iff :
    ∀ (s : List Char) (r : Regex),
      reMatch r s = true ↔ ∃ t u, s = t ++ u ∧ fullMatch r t = true := by
  intro s
  induction s with
  | nil =>
    intro r
    constructor
    · intro h
      exact ⟨[], [], rfl, h⟩
    · rintro ⟨t, u, hsplit, hm⟩
      have ht : t = [] := by
        cases t with
        | nil => rfl
        | cons a b => simp at hsplit
      subst ht
      exact hm
  | cons c rest ih =>
    intro r
    simp only [reMatch, Bool.or_eq_true]
    constructor
    · rintro (h | h)
      · exact ⟨[], c :: rest, rfl, h⟩
      · obtain ⟨t, u, hsplit, hm⟩ := (ih (deriv r c)).mp h
        exact ⟨c :: t, u, by rw [hsplit, List.cons_append], hm⟩
    · rintro ⟨t, u, hsplit, hm⟩
      cases t with
      | nil =>
        left
        exact hm
      | cons c0 t' =>
        right
        rw [List.cons_append] at hsplit
        injection hsplit with h1 h2
        subst h1
        exact (ih (deriv r c)).mpr ⟨t', u, h2, hm⟩

/-- C8, amended.  The pattern is matched with Python `match`, anchored at
the start of the name: an item is printed exactly when the pattern fully
matches some prefix of its name, not when it merely occurs somewhere
inside it. -/
theorem listItems_match_at_start (st : State) (pat : Regex) (it : Item) :
    it ∈ listItemsPrinted st pat ↔
      it ∈ st.items ∧ ∃ t u, it.name.data = t ++ u ∧ fullMatch pat t = true := by
  unfold listItemsPrinted
  rw [List.mem_filter]
  constructor
  · rintro ⟨hmem, hmatch⟩
    exact ⟨((List.perm_insertionSort (fun a b : Item => a.timestamp ≤ b.timestamp)
      st.items).mem_iff).mp hmem, (reMatch_iff _ pat).mp hmatch⟩
  · rintro ⟨hmem, hex⟩
    exact ⟨((List.perm_insertionSort (fun a b : Item => a.timestamp ≤ b.timestamp)
      st.items).mem_iff).mpr hmem, (reMatch_iff _ pat).mpr hex⟩

/-- The converter only ever returns positive sizes: a zero product is the
fatal validation error. -/
theorem convert_ok_pos (s : String) (n : Nat) (h : convertSizeStringToInt s = .ok n) :
    0 < n := by
  unfold convertSizeStringToInt at h
  split at h
  · exact absurd h (by simp)
  · split at h
    · exact absurd h (by simp)
    · split at h
      · exact absurd h (by simp)
      · next hz =>
        simp only [ConvResult.ok.injEq] at h
        omega

/-- C7, amended.  The size suffixes `k/m/g/t` are decimal multipliers and
`K/M/G/T` binary ones, so `"5g"` stores 5000000000 (and `"5G"` stores
5368709120); reading the value back returns what was stored; and a string
converting to a non-positive number, such as `"0"`, is the fatal
validation error. -/
theorem convertSize_suffixes :
    convertSizeStringToInt "5g" = ConvResult.ok 5000000000 ∧
    convertSizeStringToInt "5G" = ConvResult.ok 5368709120 ∧
    convertSizeStringToInt "0" = ConvResult.fatal ∧
    convertSizeStringToInt "2k" = ConvResult.ok 2000 ∧
    convertSizeStringToInt "2K" = ConvResult.ok 2048 ∧
    convertSizeStringToInt "2m" = ConvResult.ok 2000000 ∧
    convertSizeStringToInt "2M" = ConvResult.ok 2097152 ∧
    convertSizeStringToInt "2t" = ConvResult.ok 2000000000000 ∧
    convertSizeStringToInt "2T" = ConvResult.ok 2199023255552 ∧
    (∀ st : State, configSetSize st "5g" = Except.ok { st with limit := 5000000000 }) ∧
    (∀ st : State, getConfigSize { st with limit := 5000000000 } = 5000000000) ∧
    (∀ (st st2 : State) (s : String), configSetSize st s = Except.ok st2 →
      0 < getConfigSize st2) := by
  refine ⟨by decide, by decide, by decide, by decide, by decide, by decide, by decide,
    by decide, by decide, fun st => rfl, fun st => rfl, ?_⟩
  intro st st2 s h
  unfold configSetSize at h
  cases hc : convertSizeStringToInt s with
  | ok n =>
    rw [hc] at h
    simp only [Except.ok.injEq] at h
    have hpos := convert_ok_pos s n hc
    unfold getConfigSize
    rw [← h]
    exact hpos
  | fatal => rw [hc] at h; exact absurd h (by simp)
  | parseError => rw [hc] at h; exact absurd h (by simp)

/-- Fixture: item A of the three-archive scenario (4 MiB blob, oldest). -/
def itemA : Item := ⟨"A", 1, 1, Status.Archived, "/src/A", "A-1.tar.gz"⟩

/-- Fixture: item B of the three-archive scenario (4 MiB blob). -/
def itemB : Item := ⟨"B", 1, 2, Status.Archived, "/src/B", "B-1.tar.gz"⟩

/-- Fixture: item C of the three-archive scenario (4 MiB blob, newest). -/
def itemC : Item := ⟨"C", 1, 3, Status.Archived, "/src/C", "C-1.tar.gz"⟩

/-- Fixture: the state right before the third archive's reconciliation in
the spec's concrete scenario — three 4 MiB archives under a 10 MiB
budget. -/
def stThree : State :=
  { items := [itemA, itemB, itemC],
    versions := [("A", 1), ("B", 1), ("C", 1)],
    limit := 10485760,
    disk := [("A-1.tar.gz", 4194304), ("B-1.tar.gz", 4194304), ("C-1.tar.gz", 4194304)] }

/-- Fixture: the state the retention pass actually produces from
`stThree`. -/
def stThreeRes : State :=
  { items := [itemA, itemB, itemC],
    versions := [("A", 1), ("B", 1), ("C", 1)],
    limit := 10485760,
    disk := [("B-1.tar.gz", 4194304), ("C-1.tar.gz", 4194304)] }

/-- C1, evaluated at the failing input.  In the three-4MiB-archives,
10 MiB-budget scenario the pass does evict A's blob from disk and keeps B
and C `Archived` with their blobs — but A's catalog status stays
`Archived`, not `Deleted`: the eviction UPDATE of line 167 binds the blob
filename `A-1.tar.gz` to the `name` column and so matches no row. -/
theorem C1_scenario_eval :
    cleanup stThree = Except.ok stThreeRes ∧
    stThreeRes.items = [itemA, itemB, itemC] ∧
    itemA.status = Status.Archived ∧
    itemA.archive = "A-1.tar.gz" ∧
    alookup stThreeRes.disk "A-1.tar.gz" = none ∧
    alookup stThreeRes.disk "B-1.tar.gz" = some 4194304 ∧
    alookup stThreeRes.disk "C-1.tar.gz" = some 4194304 := by
  decide

/-- Fixture: oldest of two 4-byte items under a 2-byte budget. -/
def itemOld : Item := ⟨"o", 1, 1, Status.Archived, "/s/o", "o-1.tar.gz"⟩

/-- Fixture: newest of two 4-byte items under a 2-byte budget. -/
def itemNew : Item := ⟨"n", 1, 2, Status.Archived, "/s/n", "n-1.tar.gz"⟩

/-- Fixture: a state whose limit is smaller than every single blob. -/
def stTwoBig : State :=
  { items := [itemOld, itemNew],
    versions := [("o", 1), ("n", 1)],
    limit := 2,
    disk := [("o-1.tar.gz", 4), ("n-1.tar.gz", 4)] }

/-- C2, counterexample.  With a 2-byte limit and two 4-byte blobs — a
limit smaller than any single item's size — the pass does not leave
"exactly the newest item" `Archived`: both items keep status `Archived`
(the eviction UPDATE matches no row) and the eviction walk evicts every
blob from disk, the newest included. -/
theorem C2_counterexample :
    cleanup stTwoBig = Except.ok
      { items := [itemOld, itemNew],
        versions := [("o", 1), ("n", 1)],
        limit := 2,
        disk := [] } ∧
    itemOld.status = Status.Archived ∧
    itemNew.status = Status.Archived ∧
    itemOld.timestamp < itemNew.timestamp ∧
    stTwoBig.limit < 4 := by
  decide

/-- Fixture: an item that has been restored, its blob still on disk. -/
def itemRest : Item := ⟨"r", 1, 1, Status.Restored, "/s/r", "r-1.tar.gz"⟩

/-- Fixture: a state holding one `Restored` item and its blob. -/
def stRestored : State :=
  { items := [itemRest],
    versions := [("r", 1)],
    limit := 10,
    disk := [("r-1.tar.gz", 4)] }

/-- Fixture: the state the retention pass produces from `stRestored`. -/
def stRestoredRes : State :=
  { items := [itemRest],
    versions := [("r", 1)],
    limit := 10,
    disk := [] }

/-- C3, counterexample.  The sweep only excludes `Archived` blobs (line
152 selects `WHERE status = 'Archived'`), so the blob of an item with
status `Restored` — not `Deleted` — is deleted from the repository root
by the reconciliation. -/
theorem C3_counterexample :
    cleanup stRestored = Except.ok stRestoredRes ∧
    itemRest.status ≠ Status.Deleted ∧
    alookup stRestored.disk itemRest.archive = some 4 ∧
    alookup stRestoredRes.disk itemRest.archive = none := by
  decide

/-- Fixture: an `Archived` catalog item whose blob file is absent. -/
def itemMiss : Item := ⟨"m", 1, 1, Status.Archived, "/s/m", "m-1.tar.gz"⟩

/-- Fixture: a state with a catalog-listed archive but an empty root. -/
def stMiss : State :=
  { items := [itemMiss],
    versions := [("m", 1)],
    limit := 10,
    disk := [] }

/-- C4, counterexample.  An `Archived` item whose blob is missing does
not contribute zero to the size sum: `os.stat` raises and the pass aborts
with an error instead of completing normally. -/
theorem C4_counterexample :
    cleanup stMiss = Except.error "stat failed: missing archive file" ∧
    itemMiss.status = Status.Archived ∧
    alookup stMiss.disk itemMiss.archive = none := by
  decide

/-- Fixture: item owning the blob filename that collides with another
item's base name (oldest, will be evicted). -/
def itemOldest : Item := ⟨"A", 1, 1, Status.Archived, "/s/A", "A-1.tar.gz"⟩

/-- Fixture: item whose base name equals the evicted blob's filename. -/
def itemVictim : Item := ⟨"A-1.tar.gz", 1, 2, Status.Archived, "/s/X", "A-1.tar.gz-1.tar.gz"⟩

/-- Fixture: a reachable state where one item is literally named after
another item's blob file. -/
def stCollide : State :=
  { items := [itemOldest, itemVictim],
    versions := [("A", 1), ("A-1.tar.gz", 1)],
    limit := 5,
    disk := [("A-1.tar.gz", 4), ("A-1.tar.gz-1.tar.gz", 4)] }

/-- C9, counterexample.  Evicting item A runs `UPDATE ... SET status =
'Deleted' WHERE name = 'A-1.tar.gz'`, which hits the *retained* item
whose base name is `A-1.tar.gz`; after the sweep its blob
`A-1.tar.gz-1.tar.gz` is still a root entry, yet the only item owning
that filename now has status `Deleted` — so not every root entry belongs
to a non-`Deleted` item. -/
theorem C9_counterexample :
    cleanup stCollide = Except.ok
      { items := [itemOldest,
          ⟨"A-1.tar.gz", 1, 2, Status.Deleted, "/s/X", "A-1.tar.gz-1.tar.gz"⟩],
        versions := [("A", 1), ("A-1.tar.gz", 1)],
        limit := 5,
        disk := [("A-1.tar.gz-1.tar.gz", 4)] } ∧
    ("A-1.tar.gz-1.tar.gz" : String) ≠ DbFile ∧
    ("A-1.tar.gz-1.tar.gz" : String) ≠ LockFile ∧
    (∀ it ∈ [itemOldest,
        (⟨"A-1.tar.gz", 1, 2, Status.Deleted, "/s/X", "A-1.tar.gz-1.tar.gz"⟩ : Item)],
      it.archive = "A-1.tar.gz-1.tar.gz" → it.status = Status.Deleted) := by
  decide

/-- C7, counterexample.  Setting the size to `"5g"` stores 5000000000
(lowercase `g` is the decimal multiplier 10^9), not 5368709120 as the
claim's read-back example states. -/
theorem C7_counterexample :
    convertSizeStringToInt "5g" = ConvResult.ok 5000000000 ∧
    (5000000000 : Nat) ≠ 5368709120 := by
  decide

/-- Fixture: a regular expression for the literal text `bc`. -/
def patBC : Regex := Regex.seq (Regex.char 'b') (Regex.char 'c')

/-- Fixture: an item named `abc`. -/
def itemAbc : Item := ⟨"abc", 1, 1, Status.Archived, "/s/abc", "abc-1.tar.gz"⟩

/-- Fixture: a one-item catalog for exercising `list`. -/
def stAbc : State :=
  { items := [itemAbc],
    versions := [("abc", 1)],
    limit := 10,
    disk := [("abc-1.tar.gz", 1)] }

/-- C8, counterexample.  The pattern `bc` occurs inside the name `abc`
(search-anywhere succeeds), yet `list` prints nothing for it: the source
matches with `pattern.match`, which anchors at the start of the name. -/
theorem C8_counterexample :
    listItemsPrinted stAbc patBC = [] ∧
    searchAnywhereSpec patBC "abc".data = true ∧
    itemAbc ∈ stAbc.items := by
  decide

/-- Fixture: an empty, freshly initialized repository state. -/
def stEmpty : State :=
  { items := [], versions := [], limit := 10737418240, disk := [] }

/-- Witness for C2's theorem at the three-archive fixture. -/
theorem cleanup_disk_within_budget_witness :
    sumSnd (stThreeRes.disk.filter (fun e => decide (e.1 ≠ DbFile ∧ e.1 ≠ LockFile))) ≤
      stThree.limit :=
  cleanup_disk_within_budget stThree stThreeRes (by decide) (by decide) (by decide)

/-- Witness for C3's theorem at the restored-item fixture. -/
theorem cleanup_removes_nonarchived_blob_witness :
    alookup stRestoredRes.disk itemRest.archive = none :=
  cleanup_removes_nonarchived_blob stRestored stRestoredRes itemRest
    (by decide) (by decide) (by decide) (by decide) (by decide) (by decide)

/-- Witness for C4's theorem at the missing-blob fixture. -/
theorem cleanup_missing_blob_aborts_witness :
    cleanup stMiss = Except.error "stat failed: missing archive file" :=
  cleanup_missing_blob_aborts stMiss itemMiss (by decide) (by decide) (by decide)

/-- Witness for C5's theorem: restoring the already-restored item `r` is
rejected as not found and the catalog is unchanged. -/
theorem restore_requires_unique_archived_witness :
    restoreRun stRestored "r" none true = Except.error (RestoreError.notFound "r" none) ∧
    restoreInvocation stRestored "r" none true = stRestored :=
  (restore_requires_unique_archived stRestored "r" none true).2.2 (by decide)

/-- Witness for C6's theorem: two archives of a fresh name issue versions
1 then 2, and the resulting catalog versions are distinct. -/
theorem archive_versions_consecutive_witness :
    (archiveSeq stEmpty "f" "/s/f" 2).2 = [1, 2] ∧
    versionsDistinct (archiveSeq stEmpty "f" "/s/f" 2).1 "f" := by
  constructor
  · rw [(archive_versions_consecutive stEmpty "f" "/s/f" 2).1]
    decide
  · exact (archive_versions_consecutive stEmpty "f" "/s/f" 2).2.1 (by decide) (by decide)

/-- Witness for C7's theorem: a stored size read back is positive. -/
theorem convertSize_suffixes_witness :
    0 < getConfigSize { stEmpty with limit := 5000000000 } :=
  (convertSize_suffixes).2.2.2.2.2.2.2.2.2.2.2 stEmpty { stEmpty with limit := 5000000000 }
    "5g" ((convertSize_suffixes).2.2.2.2.2.2.2.2.2.1 stEmpty)

/-- Witness for C8's theorem: the pattern `a` matches the name `abc` at
the start, so the item is printed. -/
theorem listItems_match_at_start_witness :
    itemAbc ∈ listItemsPrinted stAbc (Regex.char 'a') := by
  apply (listItems_match_at_start stAbc (Regex.char 'a') itemAbc).mpr
  exact ⟨by decide, ['a'], ['b', 'c'], by decide, by decide⟩

/-- Witness for C9's theorem at the collision-free three-archive fixture,
instantiated at the kept root entry for B's blob. -/
theorem cleanup_root_entries_owned_witness :
    (("B-1.tar.gz", 4194304) : String × Nat).1 = DbFile ∨
    (("B-1.tar.gz", 4194304) : String × Nat).1 = LockFile ∨
    ∃ it ∈ stThreeRes.items,
      it.archive = (("B-1.tar.gz", 4194304) : String × Nat).1 ∧
      it.status ≠ Status.Deleted :=
  cleanup_root_entries_owned stThree stThreeRes (by decide) (by decide)
    ("B-1.tar.gz", 4194304) (by decide)

/-- Witness for C10's theorem: the first archive of `f` on a fresh
repository issues version 1. -/
theorem first_archive_version_one_witness :
    (archiveStep stEmpty "f" "/s/f" 7 3).2 = 1 :=
  (first_archive_version_one stEmpty "f" "/s/f" 7 3 (by decide)).1

end Archiver
